import Mathlib

/-!
Shallow embedding of `json-filter` (src/src/lib.rs): a JSON predicate
evaluation engine with a path resolver and an operator evaluator.

JSON numbers (serde_json `Number`, always finite) and the `f64` operands of
the numeric operators are modelled as rationals (`Rat`); comparisons of
finite IEEE-754 doubles agree with the order of the rationals they denote.
-/

namespace JsonFilter

/-- serde_json `Value`: the JSON data model. Objects preserve insertion
order and have unique keys; they are modelled as association lists. -/
inductive Value where
  | null
  | bool (b : Bool)
  | num (n : Rat)
  | str (s : String)
  | arr (items : List Value)
  | obj (fields : List (String × Value))
deriving Repr

mutual

/-- Structural equality on values (serde_json's derived `PartialEq`):
deep, order-sensitive for arrays and for the association lists that
model objects. -/
def Value.beq : Value → Value → Bool
  | .null, .null => true
  | .bool a, .bool b => a == b
  | .num a, .num b => a == b
  | .str a, .str b => a == b
  | .arr a, .arr b => Value.beqList a b
  | .obj a, .obj b => Value.beqFields a b
  | _, _ => false

def Value.beqList : List Value → List Value → Bool
  | [], [] => true
  | a :: as, b :: bs => Value.beq a b && Value.beqList as bs
  | _, _ => false

def Value.beqFields : List (String × Value) → List (String × Value) → Bool
  | [], [] => true
  | (ka, va) :: as, (kb, vb) :: bs =>
      ka == kb && Value.beq va vb && Value.beqFields as bs
  | _, _ => false

end

mutual

theorem Value.beq_iff : ∀ a b : Value, Value.beq a b = true ↔ a = b
  | .null, .null => by simp [Value.beq]
  | .bool a, .bool b => by simp [Value.beq]
  | .num a, .num b => by simp [Value.beq]
  | .str a, .str b => by simp [Value.beq]
  | .arr a, .arr b => by
      simp only [Value.beq, Value.beqList_iff a b, Value.arr.injEq]
  | .obj a, .obj b => by
      simp only [Value.beq, Value.beqFields_iff a b, Value.obj.injEq]
  | .null, .bool _ | .null, .num _ | .null, .str _ | .null, .arr _ | .null, .obj _
  | .bool _, .null | .bool _, .num _ | .bool _, .str _ | .bool _, .arr _ | .bool _, .obj _
  | .num _, .null | .num _, .bool _ | .num _, .str _ | .num _, .arr _ | .num _, .obj _
  | .str _, .null | .str _, .bool _ | .str _, .num _ | .str _, .arr _ | .str _, .obj _
  | .arr _, .null | .arr _, .bool _ | .arr _, .num _ | .arr _, .str _ | .arr _, .obj _
  | .obj _, .null | .obj _, .bool _ | .obj _, .num _ | .obj _, .str _ | .obj _, .arr _ => by
      simp [Value.beq]

theorem Value.beqList_iff : ∀ a b : List Value, Value.beqList a b = true ↔ a = b
  | [], [] => by simp [Value.beqList]
  | a :: as, b :: bs => by
      simp [Value.beqList, Value.beq_iff a b, Value.beqList_iff as bs]
  | [], _ :: _ => by simp [Value.beqList]
  | _ :: _, [] => by simp [Value.beqList]

theorem Value.beqFields_iff :
    ∀ a b : List (String × Value), Value.beqFields a b = true ↔ a = b
  | [], [] => by simp [Value.beqFields]
  | (ka, va) :: as, (kb, vb) :: bs => by
      simp [Value.beqFields, Value.beq_iff va vb, Value.beqFields_iff as bs,
        and_assoc]
  | [], _ :: _ => by simp [Value.beqFields]
  | _ :: _, [] => by simp [Value.beqFields]

end

instance : DecidableEq Value := fun a b =>
  decidable_of_iff (Value.beq a b = true) (Value.beq_iff a b)

mutual

/-- Modelled from the spec: the `got` field of `TypeMismatch` holds a
"debug repr"/"human-readable snapshot" of the actual value
(`format!("\x7b:?\x7d", value)` over serde_json's `Debug`, an external
collaborator type whose exact rendering the spec does not pin down). -/
def Value.debugRepr : Value → String
  | .null => "Null"
  | .bool b => "Bool(" ++ toString b ++ ")"
  | .num n => "Number(" ++ toString n ++ ")"
  | .str s => "String(\"" ++ s ++ "\")"
  | .arr items => "Array [" ++ Value.debugReprList items ++ "]"
  | .obj fields => "Object \x7b" ++ Value.debugReprFields fields ++ "\x7d"

def Value.debugReprList : List Value → String
  | [] => ""
  | [v] => Value.debugRepr v
  | v :: rest => Value.debugRepr v ++ ", " ++ Value.debugReprList rest

def Value.debugReprFields : List (String × Value) → String
  | [] => ""
  | [(k, v)] => "\"" ++ k ++ "\": " ++ Value.debugRepr v
  | (k, v) :: rest =>
      "\"" ++ k ++ "\": " ++ Value.debugRepr v ++ ", " ++ Value.debugReprFields rest

end

/-- serde_json `Value::get` with a string key (`Index<&str>`): returns the
value under the key when `self` is an object that has it, `none` otherwise
(including when `self` is not an object). First match wins (keys are
unique in well-formed objects). -/
def Value.get? (v : Value) (key : String) : Option Value :=
  match v with
  | .obj fields => fields.lookup key
  | _ => none

/-- `FilterError` (src/src/lib.rs lines 39-52). -/
inductive FilterError where
  | pathNotFound (name : String)
  | typeMismatch (expected got : String)
  | invalidArrayIndex (text : String)
  | invalidPath (text : String)
deriving DecidableEq, Repr

/-- Rust `str::split('.')`: cut the character list at every `.`,
yielding the (possibly empty) pieces in order; the empty string yields
one empty piece. Always returns at least one piece. -/
def splitDot : List Char → List (List Char)
  | [] => [[]]
  | c :: rest =>
    if c = '.' then [] :: splitDot rest
    else
      match splitDot rest with
      | piece :: pieces => (c :: piece) :: pieces
      | [] => [[c]]

/-- Rust `str::parse::<usize>` on a 64-bit platform: an optional leading
`+` sign, then one or more ASCII digits, value at most `usize::MAX =
2^64 - 1`; anything else fails. -/
def parseUsize (s : List Char) : Option Nat :=
  let digits : List Char :=
    match s with
    | '+' :: rest => rest
    | _ => s
  if digits.isEmpty then none
  else if digits.all (·.isDigit) then
    let n := digits.foldl (fun acc c => acc * 10 + (c.toNat - 48)) 0
    if n ≤ 2 ^ 64 - 1 then some n else none
  else none

/-- `segment[..bracket_idx]`: the part of a bracketed segment before the
first `[` (may be empty). -/
def bracketField (segment : List Char) : List Char :=
  segment.takeWhile (· ≠ '[')

/-- `segment[bracket_idx + 1..segment.len() - 1]`: the raw index text
between the first `[` and the final character (the closing `]`). -/
def bracketIndexStr (segment : List Char) : List Char :=
  ((segment.dropWhile (· ≠ '[')).drop 1).dropLast

/-- `Filter::parse_array_segment` (src/src/lib.rs lines 105-118): split a
`field[index]` segment; `InvalidPath` if there is no `[` (defensive),
`InvalidArrayIndex(raw text)` if the index text does not parse. -/
def parse_array_segment (segment : List Char) : Except FilterError (List Char × Nat) :=
  if segment.contains '[' then
    match parseUsize (bracketIndexStr segment) with
    | some index => .ok (bracketField segment, index)
    | none => .error (.invalidArrayIndex ⟨bracketIndexStr segment⟩)
  else
    .error (.invalidPath ⟨segment⟩)

/-- The guard of the bracketed branch in `resolve_path`:
`segment.contains('[') && segment.ends_with(']')` (a one-character
`ends_with` holds iff the last character is `]`). -/
def segIsBracketed (segment : List Char) : Bool :=
  segment.contains '[' && segment.getLast? == some ']'

/-- One iteration of the `for segment in self.path.split('.')` loop body
of `resolve_path` (src/src/lib.rs lines 74-100), transforming `current`. -/
def resolveSegment (segment : List Char) (current : Value) : Except FilterError Value :=
  if segIsBracketed segment then
    match parse_array_segment segment with
    | .error e => .error e
    | .ok (field, index) =>
      let afterField : Except FilterError Value :=
        if field.isEmpty then .ok current
        else
          match current.get? ⟨field⟩ with
          | some v => .ok v
          | none => .error (.pathNotFound ⟨field⟩)
      match afterField with
      | .error e => .error e
      | .ok cur =>
        match cur with
        | .arr items =>
          match items.get? index with
          | some v => .ok v
          | none => .error (.invalidArrayIndex (toString index))
        | _ => .error (.typeMismatch "array" cur.debugRepr)
  else
    match current.get? ⟨segment⟩ with
    | some v => .ok v
    | none => .error (.pathNotFound ⟨segment⟩)

/-- The segment loop of `resolve_path`, left to right over the split path. -/
def resolveSegments : List (List Char) → Value → Except FilterError Value
  | [], current => .ok current
  | segment :: rest, current =>
    match resolveSegment segment current with
    | .ok next => resolveSegments rest next
    | .error e => .error e

/-- `Filter::resolve_path` (src/src/lib.rs lines 67-103): `"."` is the
identity path; otherwise split on `.` and walk the segments. -/
def resolve_path (path : String) (value : Value) : Except FilterError Value :=
  if path = "." then .ok value
  else resolveSegments (splitDot path.data) value

/-- Rust `str::contains(&str)`: the needle occurs as a contiguous
substring of the haystack. -/
def listIsInfixOf (needle haystack : List Char) : Bool :=
  match haystack with
  | [] => needle.isEmpty
  | _ :: rest => needle.isPrefixOf haystack || listIsInfixOf needle rest

mutual

/-- `Operator` (src/src/lib.rs lines 5-31). `f64` operands are modelled
as `Rat` (see the header note). -/
inductive Operator where
  | greaterThan (n : Rat)
  | lessThan (n : Rat)
  | greaterOrEqual (n : Rat)
  | lessOrEqual (n : Rat)
  | equals (target : Value)
  | notEqual (target : Value)
  | startsWith (s : String)
  | endsWith (s : String)
  | contains (s : String)
  | arrayContains (target : Value)
  | hasKey (key : String)
  | and (filters : List Filter)
  | or (filters : List Filter)

/-- `Filter` (src/src/lib.rs lines 33-37): a path plus an operator. -/
inductive Filter where
  | mk (path : String) (operator : Operator)

end

def Filter.path : Filter → String
  | .mk p _ => p

def Filter.operator : Filter → Operator
  | .mk _ op => op

mutual

/-- `Filter::check` (src/src/lib.rs lines 62-65): resolve the filter's
path against `value`, then apply the operator to the resolved target. -/
def Filter.check : Filter → Value → Except FilterError Bool
  | .mk path operator, value =>
    match resolve_path path value with
    | .error e => .error e
    | .ok target => check_operator operator target

/-- `Filter::check_operator` (src/src/lib.rs lines 120-241), as a function
of `self.operator` and the `value` parameter (the resolved target passed
in by `check`). Note the `And`/`Or` branches run each child's `check`
against this same `value` parameter. -/
def check_operator : Operator → Value → Except FilterError Bool
  | .greaterThan n, value =>
    match value with
    | .num num => .ok (decide (num > n))
    | _ => .error (.typeMismatch "number" value.debugRepr)
  | .lessThan n, value =>
    match value with
    | .num num => .ok (decide (num < n))
    | _ => .error (.typeMismatch "number" value.debugRepr)
  | .greaterOrEqual n, value =>
    match value with
    | .num num => .ok (decide (num ≥ n))
    | _ => .error (.typeMismatch "number" value.debugRepr)
  | .lessOrEqual n, value =>
    match value with
    | .num num => .ok (decide (num ≤ n))
    | _ => .error (.typeMismatch "number" value.debugRepr)
  | .equals target, value => .ok (decide (value = target))
  | .notEqual target, value => .ok (!decide (value = target))
  | .startsWith s, value =>
    match value with
    | .str str => .ok (s.data.isPrefixOf str.data)
    | _ => .error (.typeMismatch "string" value.debugRepr)
  | .endsWith s, value =>
    match value with
    | .str str => .ok (s.data.isSuffixOf str.data)
    | _ => .error (.typeMismatch "string" value.debugRepr)
  | .contains s, value =>
    match value with
    | .str str => .ok (listIsInfixOf s.data str.data)
    | _ => .error (.typeMismatch "string" value.debugRepr)
  | .arrayContains target, value =>
    match value with
    | .arr items => .ok (decide (target ∈ items))
    | _ => .error (.typeMismatch "array" value.debugRepr)
  | .hasKey key, value =>
    match value with
    | .obj fields => .ok ((fields.lookup key).isSome)
    | _ => .error (.typeMismatch "object" value.debugRepr)
  | .and filters, value =>
    match checkList filters value with
    | .ok results => .ok (results.all id)
    | .error e => .error e
  | .or filters, value =>
    match checkList filters value with
    | .ok results => .ok (results.any id)
    | .error e => .error e

/-- The `for filter in filters { results.push(filter.check(value)?); }`
loop shared by the `And` and `Or` branches: collect every child's result,
aborting on the first error. -/
def checkList : List Filter → Value → Except FilterError (List Bool)
  | [], _ => .ok []
  | f :: rest, value =>
    match f.check value with
    | .error e => .error e
    | .ok b =>
      match checkList rest value with
      | .error e => .error e
      | .ok bs => .ok (b :: bs)

end

/-- `Filter::new` (src/src/lib.rs lines 55-60). -/
def Filter.new (path : String) (operator : Operator) : Filter :=
  .mk path operator

/-! ## Helper lemmas about the child-evaluation loop -/

theorem checkList_ok_all_iff (v : Value) :
    ∀ (fs : List Filter) (bs : List Bool), checkList fs v = .ok bs →
      (bs.all id = true ↔ ∀ f ∈ fs, f.check v = .ok true) := by
  intro fs
  induction fs with
  | nil =>
    intro bs h
    simp only [checkList] at h
    cases h
    simp
  | cons f rest ih =>
    intro bs h
    simp only [checkList] at h
    cases hf : f.check v with
    | error e => rw [hf] at h; cases h
    | ok b =>
      rw [hf] at h
      cases hrest : checkList rest v with
      | error e => rw [hrest] at h; cases h
      | ok bs' =>
        rw [hrest] at h
        cases h
        simp only [List.all_cons, List.mem_cons, Bool.and_eq_true, id]
        rw [ih bs' hrest]
        constructor
        · rintro ⟨hb, hall⟩ g (rfl | hg)
          · rw [hf, hb]
          · exact hall g hg
        · intro hall
          refine ⟨?_, fun g hg => hall g (Or.inr hg)⟩
          have := hall f (Or.inl rfl)
          rw [hf] at this
          cases this
          rfl

theorem checkList_ok_any_iff (v : Value) :
    ∀ (fs : List Filter) (bs : List Bool), checkList fs v = .ok bs →
      (bs.any id = true ↔ ∃ f ∈ fs, f.check v = .ok true) := by
  intro fs
  induction fs with
  | nil =>
    intro bs h
    simp only [checkList] at h
    cases h
    simp
  | cons f rest ih =>
    intro bs h
    simp only [checkList] at h
    cases hf : f.check v with
    | error e => rw [hf] at h; cases h
    | ok b =>
      rw [hf] at h
      cases hrest : checkList rest v with
      | error e => rw [hrest] at h; cases h
      | ok bs' =>
        rw [hrest] at h
        cases h
        simp only [List.any_cons, Bool.or_eq_true, id, List.mem_cons]
        rw [ih bs' hrest]
        constructor
        · rintro (hb | ⟨g, hg, hok⟩)
          · exact ⟨f, Or.inl rfl, by rw [hf, hb]⟩
          · exact ⟨g, Or.inr hg, hok⟩
        · rintro ⟨g, hg, hok⟩
          rcases hg with rfl | hg
          · rw [hok] at hf; cases hf; left; rfl
          · right; exact ⟨g, hg, hok⟩

theorem checkList_isOk_iff (v : Value) :
    ∀ fs : List Filter,
      (∃ bs, checkList fs v = .ok bs) ↔ ∀ f ∈ fs, ∃ b, f.check v = .ok b := by
  intro fs
  induction fs with
  | nil => simp [checkList]
  | cons f rest ih =>
    simp only [checkList, List.mem_cons]
    constructor
    · rintro ⟨bs, h⟩
      cases hf : f.check v with
      | error e => rw [hf] at h; cases h
      | ok b =>
        rw [hf] at h
        cases hrest : checkList rest v with
        | error e => rw [hrest] at h; cases h
        | ok bs' =>
          rintro g (rfl | hg)
          · exact ⟨b, hf⟩
          · exact (ih.mp ⟨bs', hrest⟩) g hg
    · intro hall
      obtain ⟨b, hf⟩ := hall f (Or.inl rfl)
      obtain ⟨bs', hrest⟩ := ih.mpr fun g hg => hall g (Or.inr hg)
      exact ⟨b :: bs', by rw [hf, hrest]⟩

theorem checkList_error_iff (v : Value) :
    ∀ (fs : List Filter) (e : FilterError),
      checkList fs v = .error e ↔
        ∃ gs f rest, fs = gs ++ f :: rest ∧
          (∀ g ∈ gs, ∃ b, g.check v = .ok b) ∧ f.check v = .error e := by
  intro fs
  induction fs with
  | nil =>
    intro e
    constructor
    · intro h
      exact absurd h (by simp [checkList])
    · rintro ⟨gs, f, rest, h, -, -⟩
      exact absurd h (by simp)
  | cons f rest ih =>
    intro e
    constructor
    · intro h
      simp only [checkList] at h
      cases hf : f.check v with
      | error e' =>
        rw [hf] at h
        cases h
        exact ⟨[], f, rest, rfl, by simp, hf⟩
      | ok b =>
        rw [hf] at h
        cases hrest : checkList rest v with
        | ok bs => rw [hrest] at h; cases h
        | error e' =>
          rw [hrest] at h
          cases h
          obtain ⟨gs, g, rest', heq, hok, herr⟩ := (ih e).mp hrest
          refine ⟨f :: gs, g, rest', by rw [heq, List.cons_append], ?_, herr⟩
          intro g0 hg0
          rcases List.mem_cons.mp hg0 with rfl | hg0
          · exact ⟨b, hf⟩
          · exact hok g0 hg0
    · rintro ⟨gs, g, rest', heq, hok, herr⟩
      cases gs with
      | nil =>
        simp only [List.nil_append] at heq
        cases heq
        simp only [checkList, herr]
      | cons g0 gs' =>
        rw [List.cons_append] at heq
        cases heq
        obtain ⟨b, hb⟩ := hok f (List.mem_cons_self _ _)
        have hrest : checkList (gs' ++ g :: rest') v = .error e :=
          (ih e).mpr ⟨gs', g, rest', rfl,
            fun g1 hg1 => hok g1 (List.mem_cons_of_mem _ hg1), herr⟩
        simp only [checkList, hb, hrest]

/-! ## Claim theorems -/

/-- C10: for every value whose path resolution succeeds, `check` with
`And` over an empty child list returns `Ok(true)`, and `check` with `Or`
over an empty child list returns `Ok(false)`. -/
theorem empty_and_or_check (p : String) (v t : Value)
    (h : resolve_path p v = .ok t) :
    (Filter.mk p (.and [])).check v = .ok true ∧
    (Filter.mk p (.or [])).check v = .ok false := by
  constructor <;> simp [Filter.check, h, check_operator, checkList]

theorem empty_and_or_check_witness :
    (Filter.mk "." (.and [])).check .null = .ok true ∧
    (Filter.mk "." (.or [])).check .null = .ok false :=
  empty_and_or_check "." .null .null rfl

/-- C7: `Equals(t)` and `NotEqual(t)` never fail — on any resolved value
they return `Ok` of deep structural equality (resp. its negation) with
the operand, so `Equals` is the boolean negation of `NotEqual`. -/
theorem equals_notEqual_never_fail (t v : Value) :
    check_operator (.equals t) v = .ok (decide (v = t)) ∧
    check_operator (.notEqual t) v = .ok (!decide (v = t)) :=
  ⟨rfl, rfl⟩

/-- C2: numeric comparison semantics: each of the four comparisons
returns `Ok(true)` iff the value is a `Number` satisfying the strict or
non-strict comparison with the operand, `Ok(false)` iff it is a `Number`
not satisfying it, and `TypeMismatch` with `expected = "number"` iff the
value is not a `Number`; on any `Number`, each non-strict comparison is
the disjunction of the strict comparison and `Equals` on the operand. -/
theorem numeric_comparison_semantics (n : Rat) (v : Value) :
    (check_operator (.greaterThan n) v = .ok true ↔ ∃ x, v = .num x ∧ x > n) ∧
    (check_operator (.greaterThan n) v = .ok false ↔ ∃ x, v = .num x ∧ ¬x > n) ∧
    ((∃ g, check_operator (.greaterThan n) v = .error (.typeMismatch "number" g)) ↔
      ∀ x, v ≠ .num x) ∧
    (check_operator (.lessThan n) v = .ok true ↔ ∃ x, v = .num x ∧ x < n) ∧
    (check_operator (.lessThan n) v = .ok false ↔ ∃ x, v = .num x ∧ ¬x < n) ∧
    ((∃ g, check_operator (.lessThan n) v = .error (.typeMismatch "number" g)) ↔
      ∀ x, v ≠ .num x) ∧
    (check_operator (.greaterOrEqual n) v = .ok true ↔ ∃ x, v = .num x ∧ x ≥ n) ∧
    (check_operator (.greaterOrEqual n) v = .ok false ↔ ∃ x, v = .num x ∧ ¬x ≥ n) ∧
    ((∃ g, check_operator (.greaterOrEqual n) v = .error (.typeMismatch "number" g)) ↔
      ∀ x, v ≠ .num x) ∧
    (check_operator (.lessOrEqual n) v = .ok true ↔ ∃ x, v = .num x ∧ x ≤ n) ∧
    (check_operator (.lessOrEqual n) v = .ok false ↔ ∃ x, v = .num x ∧ ¬x ≤ n) ∧
    ((∃ g, check_operator (.lessOrEqual n) v = .error (.typeMismatch "number" g)) ↔
      ∀ x, v ≠ .num x) ∧
    (∀ x, check_operator (.greaterOrEqual n) (.num x) = .ok true ↔
      (check_operator (.greaterThan n) (.num x) = .ok true ∨
       check_operator (.equals (.num n)) (.num x) = .ok true)) ∧
    (∀ x, check_operator (.lessOrEqual n) (.num x) = .ok true ↔
      (check_operator (.lessThan n) (.num x) = .ok true ∨
       check_operator (.equals (.num n)) (.num x) = .ok true)) := by
  refine ⟨?_, ?_, ?_, ?_, ?_, ?_, ?_, ?_, ?_, ?_, ?_, ?_, ?_, ?_⟩
  · cases v <;> simp [check_operator]
  · cases v <;> simp [check_operator]
  · cases v <;> simp [check_operator]
  · cases v <;> simp [check_operator]
  · cases v <;> simp [check_operator]
  · cases v <;> simp [check_operator]
  · cases v <;> simp [check_operator]
  · cases v <;> simp [check_operator]
  · cases v <;> simp [check_operator]
  · cases v <;> simp [check_operator]
  · cases v <;> simp [check_operator]
  · cases v <;> simp [check_operator]
  · intro x
    simp only [check_operator, Except.ok.injEq, decide_eq_true_eq, Value.num.injEq]
    constructor
    · intro h
      rcases lt_or_eq_of_le h with h' | h'
      · exact Or.inl h'
      · exact Or.inr h'.symm
    · rintro (h | rfl)
      · exact le_of_lt h
      · exact le_refl _
  · intro x
    simp only [check_operator, Except.ok.injEq, decide_eq_true_eq, Value.num.injEq]
    constructor
    · intro h
      rcases lt_or_eq_of_le h with h' | h'
      · exact Or.inl h'
      · exact Or.inr h'
    · rintro (h | rfl)
      · exact le_of_lt h
      · exact le_refl _

theorem numeric_comparison_semantics_witness :
    check_operator (.greaterThan 20) (.num 25) = .ok true ∧
    check_operator (.lessOrEqual 25) (.num 25) = .ok true := by
  constructor
  · exact (numeric_comparison_semantics 20 (.num 25)).1.mpr ⟨25, rfl, by norm_num⟩
  · exact (numeric_comparison_semantics 25 (.num 25)).2.2.2.2.2.2.2.2.2.1.mpr
      ⟨25, rfl, le_refl _⟩

/-- C6: `Filter::new(".", And(fs)).check(v)` is the conjunction of
`f.check(v)` over `f ∈ fs` — true iff all children check true, false iff
all children evaluate and one is false, and an error iff some child
fails after all earlier children evaluated, propagating that first
error; the path "." resolves to the root value unchanged. -/
theorem and_identity_path_conjunction (fs : List Filter) (v : Value) :
    resolve_path "." v = .ok v ∧
    ((Filter.new "." (.and fs)).check v = .ok true ↔
      ∀ f ∈ fs, f.check v = .ok true) ∧
    ((Filter.new "." (.and fs)).check v = .ok false ↔
      (∀ f ∈ fs, ∃ b, f.check v = .ok b) ∧ ∃ f ∈ fs, f.check v = .ok false) ∧
    (∀ e, (Filter.new "." (.and fs)).check v = .error e ↔
      ∃ gs f rest, fs = gs ++ f :: rest ∧
        (∀ g ∈ gs, ∃ b, g.check v = .ok b) ∧ f.check v = .error e) := by
  have hres : resolve_path "." v = .ok v := rfl
  have hc : (Filter.new "." (.and fs)).check v = check_operator (.and fs) v := by
    simp [Filter.new, Filter.check, hres]
  refine ⟨hres, ?_, ?_, ?_⟩
  · rw [hc]
    simp only [check_operator]
    cases hcl : checkList fs v with
    | error e =>
      constructor
      · intro h; cases h
      · intro hall
        obtain ⟨gs, f, rest, heq, -, herr⟩ := (checkList_error_iff v fs e).mp hcl
        have : f.check v = .ok true := hall f (by rw [heq]; simp)
        rw [this] at herr
        cases herr
    | ok results =>
      simp only [Except.ok.injEq]
      exact checkList_ok_all_iff v fs results hcl
  · rw [hc]
    simp only [check_operator]
    cases hcl : checkList fs v with
    | error e =>
      constructor
      · intro h; cases h
      · rintro ⟨hallok, -⟩
        obtain ⟨bs, hbs⟩ := (checkList_isOk_iff v fs).mpr hallok
        rw [hbs] at hcl
        cases hcl
    | ok results =>
      simp only [Except.ok.injEq]
      constructor
      · intro hfalse
        refine ⟨(checkList_isOk_iff v fs).mp ⟨results, hcl⟩, ?_⟩
        have hnot : ¬ results.all id = true := by rw [hfalse]; simp
        rw [checkList_ok_all_iff v fs results hcl] at hnot
        push_neg at hnot
        obtain ⟨f, hf, hne⟩ := hnot
        obtain ⟨b, hb⟩ := (checkList_isOk_iff v fs).mp ⟨results, hcl⟩ f hf
        cases b with
        | true => exact absurd hb hne
        | false => exact ⟨f, hf, hb⟩
      · rintro ⟨-, f, hf, hfalse⟩
        have hnot : ¬ results.all id = true := by
          rw [checkList_ok_all_iff v fs results hcl]
          intro hall
          have := hall f hf
          rw [hfalse] at this
          cases this
        cases hall : results.all id with
        | true => exact absurd hall hnot
        | false => rfl
  · intro e
    rw [hc]
    simp only [check_operator]
    cases hcl : checkList fs v with
    | error e' =>
      constructor
      · intro h
        cases h
        exact (checkList_error_iff v fs e).mp hcl
      · intro hdec
        have : checkList fs v = .error e := (checkList_error_iff v fs e).mpr hdec
        rw [hcl] at this
        cases this
        rfl
    | ok results =>
      constructor
      · intro h; cases h
      · intro hdec
        have : checkList fs v = .error e := (checkList_error_iff v fs e).mpr hdec
        rw [hcl] at this
        cases this

theorem and_identity_path_conjunction_witness :
    (Filter.new "." (.and [Filter.new "." (.equals .null)])).check .null = .ok true :=
  ((and_identity_path_conjunction [Filter.new "." (.equals .null)] .null).2.1).mpr
    (fun f hf => by
      rcases List.mem_singleton.mp hf with rfl
      rfl)

/-- C5: And/Or children are evaluated strictly left to right against the
resolved target; the first child whose evaluation fails aborts the whole
check with exactly that error, regardless of the later children and of
the earlier children's boolean results. -/
theorem first_child_error_aborts (p : String) (v t : Value) (gs : List Filter)
    (f : Filter) (rest : List Filter) (e : FilterError)
    (hres : resolve_path p v = .ok t)
    (hok : ∀ g ∈ gs, ∃ b, g.check t = .ok b)
    (herr : f.check t = .error e) :
    (Filter.mk p (.and (gs ++ f :: rest))).check v = .error e ∧
    (Filter.mk p (.or (gs ++ f :: rest))).check v = .error e := by
  have hcl : checkList (gs ++ f :: rest) t = .error e :=
    (checkList_error_iff t _ e).mpr ⟨gs, f, rest, rfl, hok, herr⟩
  constructor <;> simp [Filter.check, hres, check_operator, hcl]

theorem first_child_error_aborts_witness :
    (Filter.mk "." (.and [Filter.mk "." (.equals .null),
        Filter.mk "x" (.equals .null), Filter.mk "." (.equals .null)])).check .null =
      .error (.pathNotFound "x") ∧
    (Filter.mk "." (.or [Filter.mk "." (.equals .null),
        Filter.mk "x" (.equals .null), Filter.mk "." (.equals .null)])).check .null =
      .error (.pathNotFound "x") :=
  first_child_error_aborts "." .null .null [Filter.mk "." (.equals .null)]
    (Filter.mk "x" (.equals .null)) [Filter.mk "." (.equals .null)]
    (.pathNotFound "x") rfl
    (by
      intro g hg
      rcases List.mem_singleton.mp hg with rfl
      exact ⟨true, rfl⟩)
    rfl

/-- C1 (counterexample): with the non-"." parent path "a", the And child
is not evaluated against the top-level value: the child's own check
against the top-level value fails with `PathNotFound("b")`, yet the
enclosing check returns `Ok(true)` instead of propagating that error. -/
theorem and_child_top_level_cex :
    (Filter.new "a" (.and [Filter.new "b" (.equals (.num 1))])).check
        (.obj [("a", .obj [("b", .num 1)])]) = .ok true ∧
    (Filter.new "b" (.equals (.num 1))).check
        (.obj [("a", .obj [("b", .num 1)])]) = .error (.pathNotFound "b") :=
  ⟨rfl, rfl⟩

/-- C1 (amended): And/Or child filters are evaluated against the value
resolved by the parent filter's own path: checking `And`/`Or` with parent
path `p` against `v` coincides with checking the same operator with the
identity path "." against the resolved target `t`. Children see the
top-level value exactly when the parent's path resolves to it, as the
conventional "." does. -/
theorem and_or_children_see_resolved_value (p : String) (fs : List Filter)
    (v t : Value) (h : resolve_path p v = .ok t) :
    (Filter.mk p (.and fs)).check v = (Filter.mk "." (.and fs)).check t ∧
    (Filter.mk p (.or fs)).check v = (Filter.mk "." (.or fs)).check t := by
  constructor <;> (simp only [Filter.check, h]; rfl)

theorem and_or_children_see_resolved_value_witness :
    (Filter.mk "a" (.and [Filter.new "b" (.equals (.num 1))])).check
        (.obj [("a", .obj [("b", .num 1)])]) =
      (Filter.mk "." (.and [Filter.new "b" (.equals (.num 1))])).check
        (.obj [("b", .num 1)]) :=
  (and_or_children_see_resolved_value "a" [Filter.new "b" (.equals (.num 1))]
    (.obj [("a", .obj [("b", .num 1)])]) (.obj [("b", .num 1)]) rfl).1

/-- Path resolution distributes over appending segment lists. -/
theorem resolveSegments_append (s1 s2 : List (List Char)) (w : Value) :
    resolveSegments (s1 ++ s2) w =
      (resolveSegments s1 w).bind (resolveSegments s2) := by
  induction s1 generalizing w with
  | nil => simp [resolveSegments, Except.bind]
  | cons seg rest ih =>
    simp only [List.cons_append, resolveSegments]
    cases resolveSegment seg w with
    | ok next => simp [ih, Except.bind]
    | error e => simp [Except.bind]

/-- C8: resolving the multi-segment path "a.b.c" yields the same result
as resolving "a" on the root, then "b" on that sub-value, then "c" on
the next (same sub-value on success, same error on failure); in general
resolution composes segment-wise, left to right. -/
theorem path_resolution_composes (v : Value) :
    (resolve_path "a.b.c" v = (resolve_path "a" v).bind fun v1 =>
        (resolve_path "b" v1).bind fun v2 => resolve_path "c" v2) ∧
    (∀ (s1 s2 : List (List Char)) (w : Value),
      resolveSegments (s1 ++ s2) w =
        (resolveSegments s1 w).bind (resolveSegments s2)) := by
  constructor
  · have key : ∀ (p : String) (segs : List (List Char)), p ≠ "." →
        splitDot p.data = segs → ∀ w, resolve_path p w = resolveSegments segs w := by
      intro p segs hp hsplit w
      unfold resolve_path
      rw [if_neg hp, hsplit]
    have ha := key "a" ["a".data] (by decide) rfl
    have hb := key "b" ["b".data] (by decide) rfl
    have hc := key "c" ["c".data] (by decide) rfl
    rw [key "a.b.c" (["a".data] ++ (["b".data] ++ ["c".data])) (by decide) rfl]
    rw [resolveSegments_append]
    have hbc : resolveSegments ((["b".data] ++ ["c".data]) : List (List Char)) =
        fun w => (resolveSegments ["b".data] w).bind (resolveSegments ["c".data]) :=
      funext fun w => resolveSegments_append _ _ w
    rw [hbc]
    simp only [ha, hb, hc]
  · exact fun s1 s2 w => resolveSegments_append s1 s2 w

/-- C3: during resolution of a plain (non-bracketed) segment, descending
into a value that is not an Object fails with `PathNotFound(segment)`
exactly as a missing key does, and never with `TypeMismatch`; this is
asymmetric with the bracketed case, which reports
`TypeMismatch(expected "array")` when the (post-field) current value is
not an Array. -/
theorem plain_segment_pathNotFound (segment : List Char) (v : Value)
    (hplain : segIsBracketed segment = false) :
    ((∀ fields, v ≠ .obj fields) →
      resolveSegment segment v = .error (.pathNotFound ⟨segment⟩)) ∧
    (∀ fields, v = .obj fields → fields.lookup ⟨segment⟩ = none →
      resolveSegment segment v = .error (.pathNotFound ⟨segment⟩)) ∧
    (∀ expected got, resolveSegment segment v ≠ .error (.typeMismatch expected got)) ∧
    (∀ (bseg : List Char) (w : Value) (idx : Nat), segIsBracketed bseg = true →
      parse_array_segment bseg = .ok ([], idx) → (∀ items, w ≠ .arr items) →
      resolveSegment bseg w = .error (.typeMismatch "array" w.debugRepr)) := by
  refine ⟨?_, ?_, ?_, ?_⟩
  · intro hnot
    simp only [resolveSegment, hplain, Bool.false_eq_true, if_false]
    cases v with
    | obj fields => exact absurd rfl (hnot fields)
    | null => rfl
    | bool b => rfl
    | num n => rfl
    | str s => rfl
    | arr items => rfl
  · rintro fields rfl hnone
    simp only [resolveSegment, hplain, Bool.false_eq_true, if_false, Value.get?, hnone]
  · intro expected got
    simp only [resolveSegment, hplain, Bool.false_eq_true, if_false]
    cases v.get? ⟨segment⟩ <;> simp
  · intro bseg w idx hbr hparse hnarr
    simp only [resolveSegment, hbr, if_true, hparse, List.isEmpty_nil, if_true]

theorem plain_segment_pathNotFound_witness :
    resolveSegment "age".data (.str "x") = .error (.pathNotFound "age") ∧
    resolveSegment "age".data (.obj [("name", .str "John")]) =
      .error (.pathNotFound "age") ∧
    resolveSegment "[0]".data (.str "x") =
      .error (.typeMismatch "array" "String(\"x\")") := by
  refine ⟨?_, ?_, ?_⟩
  · exact (plain_segment_pathNotFound "age".data (.str "x") rfl).1
      (fun fields h => by cases h)
  · exact (plain_segment_pathNotFound "age".data (.obj [("name", .str "John")])
      rfl).2.1 [("name", .str "John")] rfl rfl
  · exact (plain_segment_pathNotFound "age".data (.str "x") rfl).2.2.2
      "[0]".data (.str "x") 0 rfl rfl (fun items h => by cases h)

/-- C4: at a bracketed segment, an unparseable index text fails with
`InvalidArrayIndex` carrying the raw text; a parseable index applied
(after the optional field descent) to a non-Array fails with
`TypeMismatch(expected "array", got debug repr)`; and an in-range check
failing (index ≥ length) on an Array fails with `InvalidArrayIndex`
carrying the rendered parsed index. -/
theorem bracket_segment_errors (segment : List Char) (v : Value)
    (hbr : segIsBracketed segment = true) :
    (parseUsize (bracketIndexStr segment) = none →
      resolveSegment segment v = .error (.invalidArrayIndex ⟨bracketIndexStr segment⟩)) ∧
    (∀ idx t, parseUsize (bracketIndexStr segment) = some idx →
      ((bracketField segment).isEmpty = true ∧ t = v ∨
       (bracketField segment).isEmpty = false ∧ v.get? ⟨bracketField segment⟩ = some t) →
      ((∀ items, t ≠ .arr items) →
        resolveSegment segment v = .error (.typeMismatch "array" t.debugRepr)) ∧
      (∀ items, t = .arr items → items.length ≤ idx →
        resolveSegment segment v = .error (.invalidArrayIndex (toString idx)))) := by
  have hcontains : segment.contains '[' = true := by
    unfold segIsBracketed at hbr
    simp only [Bool.and_eq_true] at hbr
    exact hbr.1
  constructor
  · intro hnone
    simp only [resolveSegment, hbr, if_true, parse_array_segment, hcontains, hnone]
  · intro idx t hsome htgt
    have hparse : parse_array_segment segment = .ok (bracketField segment, idx) := by
      simp only [parse_array_segment, hcontains, if_true, hsome]
    have hafter :
        (if (bracketField segment).isEmpty then Except.ok v
         else match v.get? ⟨bracketField segment⟩ with
              | some w => Except.ok w
              | none => Except.error (.pathNotFound ⟨bracketField segment⟩)) =
          (Except.ok t : Except FilterError Value) := by
      rcases htgt with ⟨hemp, rfl⟩ | ⟨hemp, hget⟩
      · rw [if_pos hemp]
      · rw [if_neg (by rw [hemp]; exact Bool.false_ne_true), hget]
    constructor
    · intro hnarr
      simp only [resolveSegment, hbr, if_true, hparse, hafter]
    · rintro items rfl hlen
      simp only [resolveSegment, hbr, if_true, hparse, hafter]
      rw [List.get?_eq_none.mpr hlen]

theorem bracket_segment_errors_witness :
    resolveSegment "[x]".data (.arr [.null]) = .error (.invalidArrayIndex "x") ∧
    resolveSegment "[0]".data .null = .error (.typeMismatch "array" "Null") ∧
    resolveSegment "tags[1]".data (.obj [("tags", .arr [.null])]) =
      .error (.invalidArrayIndex "1") := by
  refine ⟨?_, ?_, ?_⟩
  · exact (bracket_segment_errors "[x]".data (.arr [.null]) rfl).1 rfl
  · exact ((bracket_segment_errors "[0]".data .null rfl).2 0 .null rfl
      (Or.inl ⟨rfl, rfl⟩)).1 (fun items h => by cases h)
  · exact ((bracket_segment_errors "tags[1]".data (.obj [("tags", .arr [.null])])
      rfl).2 1 (.arr [.null]) rfl (Or.inr ⟨rfl, rfl⟩)).2 [.null] rfl (by norm_num)

/-! ## The defensive InvalidPath branch is unreachable through check -/

theorem parse_array_segment_not_invalidPath (segment : List Char)
    (h : segment.contains '[' = true) (s : String) :
    parse_array_segment segment ≠ .error (.invalidPath s) := by
  simp only [parse_array_segment, h, if_true]
  cases parseUsize (bracketIndexStr segment) <;> simp

theorem resolveSegment_not_invalidPath (segment : List Char) (v : Value)
    (s : String) : resolveSegment segment v ≠ .error (.invalidPath s) := by
  intro h
  unfold resolveSegment at h
  by_cases hb : segIsBracketed segment = true
  · have hcontains : segment.contains '[' = true := by
      unfold segIsBracketed at hb
      simp only [Bool.and_eq_true] at hb
      exact hb.1
    rw [if_pos hb] at h
    cases hp : parse_array_segment segment with
    | error e =>
      rw [hp] at h
      cases h
      exact parse_array_segment_not_invalidPath segment hcontains s hp
    | ok fi =>
      obtain ⟨field, index⟩ := fi
      rw [hp] at h
      revert h
      cases field with
      | nil =>
        cases v with
        | arr items => cases hgi : items[index]? <;> simp [hgi]
        | null => simp
        | bool b => simp
        | num n => simp
        | str str => simp
        | obj fields => simp
      | cons c cs =>
        cases hget : Value.get? v ⟨c :: cs⟩ with
        | none => simp [hget]
        | some w =>
          cases w with
          | arr items => cases hgi : items[index]? <;> simp [hget, hgi]
          | null => simp [hget]
          | bool b => simp [hget]
          | num n => simp [hget]
          | str str => simp [hget]
          | obj fields => simp [hget]
  · rw [if_neg hb] at h
    revert h
    cases Value.get? v ⟨segment⟩ <;> simp

theorem resolveSegments_not_invalidPath (segs : List (List Char)) (v : Value)
    (s : String) : resolveSegments segs v ≠ .error (.invalidPath s) := by
  induction segs generalizing v with
  | nil => simp [resolveSegments]
  | cons seg rest ih =>
    simp only [resolveSegments]
    cases hseg : resolveSegment seg v with
    | ok next => exact ih next
    | error e =>
      intro hcontra
      cases hcontra
      exact resolveSegment_not_invalidPath seg v s hseg

theorem resolve_path_not_invalidPath (p : String) (v : Value) (s : String) :
    resolve_path p v ≠ .error (.invalidPath s) := by
  unfold resolve_path
  by_cases hp : p = "."
  · simp [hp]
  · rw [if_neg hp]
    exact resolveSegments_not_invalidPath (splitDot p.data) v s

mutual

theorem check_not_invalidPath : ∀ (f : Filter) (v : Value) (s : String),
    f.check v ≠ .error (.invalidPath s)
  | .mk p op, v, s => by
    simp only [Filter.check]
    cases hr : resolve_path p v with
    | error e =>
      intro h
      cases h
      exact resolve_path_not_invalidPath p v s hr
    | ok t => exact check_operator_not_invalidPath op t s

theorem check_operator_not_invalidPath : ∀ (op : Operator) (v : Value) (s : String),
    check_operator op v ≠ .error (.invalidPath s)
  | .greaterThan n, v, s => by cases v <;> simp [check_operator]
  | .lessThan n, v, s => by cases v <;> simp [check_operator]
  | .greaterOrEqual n, v, s => by cases v <;> simp [check_operator]
  | .lessOrEqual n, v, s => by cases v <;> simp [check_operator]
  | .equals t, v, s => by simp [check_operator]
  | .notEqual t, v, s => by simp [check_operator]
  | .startsWith str, v, s => by cases v <;> simp [check_operator]
  | .endsWith str, v, s => by cases v <;> simp [check_operator]
  | .contains str, v, s => by cases v <;> simp [check_operator]
  | .arrayContains t, v, s => by cases v <;> simp [check_operator]
  | .hasKey k, v, s => by cases v <;> simp [check_operator]
  | .and fs, v, s => by
    simp only [check_operator]
    cases hcl : checkList fs v with
    | ok results => simp
    | error e =>
      intro h
      cases h
      exact checkList_not_invalidPath fs v s hcl
  | .or fs, v, s => by
    simp only [check_operator]
    cases hcl : checkList fs v with
    | ok results => simp
    | error e =>
      intro h
      cases h
      exact checkList_not_invalidPath fs v s hcl

theorem checkList_not_invalidPath : ∀ (fs : List Filter) (v : Value) (s : String),
    checkList fs v ≠ .error (.invalidPath s)
  | [], v, s => by simp [checkList]
  | f :: rest, v, s => by
    simp only [checkList]
    cases hf : f.check v with
    | error e =>
      intro h
      cases h
      exact check_not_invalidPath f v s hf
    | ok b =>
      cases hrest : checkList rest v with
      | ok bs => simp
      | error e =>
        intro h
        cases h
        exact checkList_not_invalidPath rest v s hrest

end

/-- Boolean test for the defensive `InvalidPath` error at the public
interface: true exactly on `Err(InvalidPath(_))` results of `check`. -/
def returnsInvalidPath : Except FilterError Bool → Bool
  | .error (.invalidPath _) => true
  | _ => false

/-- C9: for every filter and every value, `check` never returns the
`InvalidPath` error: the `contains('[') && ends_with(']')` guard makes
the defensive `InvalidPath` branch inside `parse_array_segment`
unreachable from `check`. -/
theorem check_never_invalidPath (f : Filter) (v : Value) :
    returnsInvalidPath (f.check v) = false := by
  cases hr : f.check v with
  | ok b => rfl
  | error e =>
    cases e with
    | pathNotFound name => rfl
    | typeMismatch expected got => rfl
    | invalidArrayIndex text => rfl
    | invalidPath text => exact absurd hr (check_not_invalidPath f v text)

end JsonFilter
